import Mathlib

/-
Verification of the task-tracking / Pomodoro service in src/fastapitest.py.

The FastAPI handlers are shallowly embedded as pure functions over an
explicit database state.  The SQLAlchemy tables `tasks` and
`pomodoro_sessions` become Lean lists kept in insertion (rowid) order;
`query(...).filter(p).first()` becomes `List.find?`; in-place mutation of
the row returned by `first()` becomes `updateFirst`; `db.delete(row)`
becomes `removeFirst`.  `datetime.now()` is passed in explicitly as an
integer timestamp (seconds); `timedelta(minutes=25)` is 1500 seconds.
HTTPException is an error value carrying the status code and the (Polish)
detail message from the source.  The SQLite primary-key constraint on
`tasks.id` (violated at `db.commit()` when the client-supplied id already
exists, since the handler never checks ids) is modelled as a distinct
`integrityError` value: an unhandled store error, not an HTTPException.
-/

namespace Fastapitest

/-- Row of the `tasks` table (src/fastapitest.py lines 16-21). -/
structure Task where
  id : Int
  title : String
  description : Option String
  status : String
deriving Repr, DecidableEq

/-- Row of the `pomodoro_sessions` table (lines 23-29).  The surrogate
primary key `id` is never read by any handler, so it is omitted; a row is
identified by its position in the list. -/
structure PomodoroSession where
  task_id : Int
  start_time : Int
  end_time : Int
  completed : Bool
deriving Repr, DecidableEq

/-- The whole database state: both tables, in insertion order. -/
structure DB where
  tasks : List Task
  sessions : List PomodoroSession
deriving Repr, DecidableEq

/-- The empty database produced by `Base.metadata.create_all` (line 31). -/
def DB.empty : DB := { tasks := [], sessions := [] }

/-- Pydantic request model `TaskModel` (lines 35-39): note that `id` is a
required field supplied by the client. -/
structure TaskModel where
  id : Int
  title : String
  description : Option String
  status : String
deriving Repr, DecidableEq

/-- The pattern "^(TODO|in_progress|done)$" of TaskModel.status (line 39). -/
def validStatus (s : String) : Bool :=
  s == "TODO" || s == "in_progress" || s == "done"

/-- Pydantic validation of TaskModel (lines 35-39): title 3-100 chars,
description at most 300 chars, status matching the pattern.  FastAPI runs
this before the handler; an invalid body never reaches the handler. -/
def validTaskModel (t : TaskModel) : Bool :=
  decide (3 ≤ t.title.length) && decide (t.title.length ≤ 100)
    && (match t.description with
        | none => true
        | some d => decide (d.length ≤ 300))
    && validStatus t.status

/-- Errors surfaced by the handlers: `http status detail` embeds
`HTTPException(status_code, detail)`; `integrityError` embeds the
unhandled sqlalchemy IntegrityError raised at `db.commit()` when the
`tasks.id` primary key is violated. -/
inductive ApiError where
  | http (status : Nat) (detail : String)
  | integrityError
deriving Repr, DecidableEq

/-- HTTPException 404 "Zadanie o podanym ID nie istnieje." -/
def errTaskNotFound : ApiError := .http 404 "Zadanie o podanym ID nie istnieje."

/-- HTTPException 400 "Tytuł zadania musi być unikalny." -/
def errTitleConflict : ApiError := .http 400 "Tytuł zadania musi być unikalny."

/-- HTTPException 400 "Zadanie już ma aktywny timer." -/
def errActiveTimer : ApiError := .http 400 "Zadanie już ma aktywny timer."

/-- HTTPException 400 "Brak aktywnego timera dla zadania." -/
def errNoActiveTimer : ApiError := .http 400 "Brak aktywnego timera dla zadania."

/-- Replace the first element satisfying p by its image under f: the pure
rendering of "query(...).filter(p).first()" followed by in-place mutation
of that row. -/
def updateFirst (p : α → Bool) (f : α → α) : List α → List α
  | [] => []
  | x :: xs => if p x then f x :: xs else x :: updateFirst p f xs

/-- Remove the first element satisfying p: the pure rendering of
`db.delete(row)` for the row returned by `first()`. -/
def removeFirst (p : α → Bool) : List α → List α
  | [] => []
  | x :: xs => if p x then xs else x :: removeFirst p xs

/-- Handler POST /tasks, `create_task` (lines 47-56).  Checks title
uniqueness, then inserts `Task(**task.dict())` — including the
client-supplied id.  The second branch models the `tasks.id` primary-key
constraint firing at `db.commit()`: the transaction fails with an
unhandled IntegrityError and nothing is stored. -/
def create_task (db : DB) (task : TaskModel) : Except ApiError (DB × Task) :=
  if (db.tasks.find? (fun t => t.title == task.title)).isSome then
    .error errTitleConflict
  else
    let db_task : Task :=
      { id := task.id, title := task.title,
        description := task.description, status := task.status }
    if (db.tasks.find? (fun t => t.id == db_task.id)).isSome then
      .error .integrityError
    else
      .ok ({ db with tasks := db.tasks ++ [db_task] }, db_task)

/-- Handler GET /tasks, `get_tasks` (lines 58-63). -/
def get_tasks (db : DB) (status : Option String) : List Task :=
  match status with
  | some s => db.tasks.filter (fun t => t.status == s)
  | none => db.tasks

/-- Handler GET /tasks/{task_id}, `get_task` (lines 65-71). -/
def get_task (db : DB) (task_id : Int) : Except ApiError Task :=
  match db.tasks.find? (fun t => t.id == task_id) with
  | none => .error errTaskNotFound
  | some task => .ok task

/-- Handler PUT /tasks/{task_id}, `update_task` (lines 73-86): 404 when the
id is absent, 400 when another row (different id) already has the new
title, otherwise overwrites title/description/status of the row found
first. -/
def update_task (db : DB) (task_id : Int) (updated_task : TaskModel) :
    Except ApiError DB :=
  match db.tasks.find? (fun t => t.id == task_id) with
  | none => .error errTaskNotFound
  | some _ =>
    if (db.tasks.find?
        (fun t => t.title == updated_task.title && !(t.id == task_id))).isSome then
      .error errTitleConflict
    else
      .ok { db with
            tasks := updateFirst (fun t => t.id == task_id)
              (fun t => { t with title := updated_task.title,
                                 description := updated_task.description,
                                 status := updated_task.status })
              db.tasks }

/-- Handler DELETE /tasks/{task_id}, `delete_task` (lines 88-96). -/
def delete_task (db : DB) (task_id : Int) : Except ApiError DB :=
  match db.tasks.find? (fun t => t.id == task_id) with
  | none => .error errTaskNotFound
  | some _ =>
    .ok { db with tasks := removeFirst (fun t => t.id == task_id) db.tasks }

/-- `timedelta(minutes=25)` in seconds (line 107). -/
def pomodoroDuration : Int := 25 * 60

/-- Predicate of the query on lines 104 and 116: an incomplete (active)
session for the given task_id. -/
def isActiveFor (task_id : Int) (s : PomodoroSession) : Bool :=
  s.task_id == task_id && !s.completed

/-- Handler POST /pomodoro, `create_pomodoro` (lines 98-111): 404 when the
task does not exist, 400 when an incomplete session for the task already
exists, otherwise inserts a fresh session with start_time = now,
end_time = now + 25 minutes, completed = false.  `now` is the value of
`datetime.now()` at the call. -/
def create_pomodoro (db : DB) (task_id : Int) (now : Int) :
    Except ApiError (DB × PomodoroSession) :=
  if (db.tasks.find? (fun t => t.id == task_id)).isNone then
    .error errTaskNotFound
  else if (db.sessions.find? (isActiveFor task_id)).isSome then
    .error errActiveTimer
  else
    let session : PomodoroSession :=
      { task_id := task_id, start_time := now,
        end_time := now + pomodoroDuration, completed := false }
    .ok ({ db with sessions := db.sessions ++ [session] }, session)

/-- Handler POST /pomodoro/{task_id}/stop, `stop_pomodoro` (lines 113-123):
400 when no incomplete session for the task exists, otherwise sets
completed = true and end_time = now on the first such session.  The Task
Registry is never consulted. -/
def stop_pomodoro (db : DB) (task_id : Int) (now : Int) : Except ApiError DB :=
  match db.sessions.find? (isActiveFor task_id) with
  | none => .error errNoActiveTimer
  | some _ =>
    .ok { db with
          sessions := updateFirst (isActiveFor task_id)
            (fun s => { s with completed := true, end_time := now })
            db.sessions }

/-- One step of the dict update `stats[tid] = stats.get(tid, 0) + 1`
(line 131) on the association list representing the Python dict
(keys in first-insertion order). -/
def bumpCount (tid : Int) : List (Int × Nat) → List (Int × Nat)
  | [] => [(tid, 1)]
  | (k, v) :: rest =>
    if k == tid then (k, v + 1) :: rest else (k, v) :: bumpCount tid rest

/-- Handler GET /pomodoro/stats, `get_pomodoro_stats` (lines 125-133):
iterates the completed sessions, counting per task_id and summing
end_time - start_time.  Returns (sessions_per_task, total_time). -/
def get_pomodoro_stats (db : DB) : List (Int × Nat) × Int :=
  (db.sessions.filter (fun s => s.completed)).foldl
    (fun acc s => (bumpCount s.task_id acc.1, acc.2 + (s.end_time - s.start_time)))
    ([], 0)

/-- Look a task_id up in the stats dict: none when the key is absent. -/
def lookupCount (m : List (Int × Nat)) (tid : Int) : Option Nat :=
  (m.find? (fun kv => kv.1 == tid)).map (fun kv => kv.2)

/-- The operations a client can invoke on the running service.  Timestamps
for the Pomodoro operations are the `datetime.now()` values at the call. -/
inductive Op where
  | createT (t : TaskModel)
  | listT (status : Option String)
  | getT (id : Int)
  | updateT (id : Int) (t : TaskModel)
  | deleteT (id : Int)
  | startP (task_id : Int) (now : Int)
  | stopP (task_id : Int) (now : Int)

/-- The state after executing one operation: on any error (HTTPException,
pydantic 422 on an invalid body, or an IntegrityError rolling back the
transaction) the database is unchanged; a read-only operation leaves it
unchanged as well. -/
def applyOp (db : DB) : Op → DB
  | .createT t =>
    if validTaskModel t then
      match create_task db t with
      | .ok (db', _) => db'
      | .error _ => db
    else db
  | .listT _ => db
  | .getT _ => db
  | .updateT id t =>
    if validTaskModel t then
      match update_task db id t with
      | .ok db' => db'
      | .error _ => db
    else db
  | .deleteT id =>
    match delete_task db id with
    | .ok db' => db'
    | .error _ => db
  | .startP tid now =>
    match create_pomodoro db tid now with
    | .ok (db', _) => db'
    | .error _ => db
  | .stopP tid now =>
    match stop_pomodoro db tid now with
    | .ok db' => db'
    | .error _ => db

/-- States reachable from the empty database by any sequence of calls. -/
inductive Reachable : DB → Prop where
  | init : Reachable DB.empty
  | step (op : Op) {db : DB} : Reachable db → Reachable (applyOp db op)

/-- No two rows of `tasks` share a title (case-sensitive). -/
def titlesUnique (db : DB) : Prop :=
  db.tasks.Pairwise (fun a b => a.title ≠ b.title)

/-- No two rows of `tasks` share an id (the primary-key constraint). -/
def idsUnique (db : DB) : Prop :=
  db.tasks.Pairwise (fun a b => a.id ≠ b.id)

/-- For every task_id, at most one session with completed = false. -/
def atMostOneActive (db : DB) : Prop :=
  ∀ tid : Int, db.sessions.countP (isActiveFor tid) ≤ 1

/-- The combined state invariant maintained by every operation. -/
def Inv (db : DB) : Prop :=
  titlesUnique db ∧ idsUnique db ∧ atMostOneActive db

/-- A successful `first()` splits the list at the first match. -/
theorem find?_split {α} {p : α → Bool} {l : List α} {x : α}
    (h : l.find? p = some x) :
    ∃ pre post, l = pre ++ x :: post ∧ (∀ y ∈ pre, ¬ p y) ∧ p x := by
  induction l with
  | nil => simp [List.find?] at h
  | cons a as ih =>
    by_cases ha : p a
    · rw [List.find?_cons_of_pos _ ha] at h
      cases h
      exact ⟨[], as, rfl, by simp, ha⟩
    · rw [List.find?_cons_of_neg _ ha] at h
      obtain ⟨pre, post, rfl, hpre, hx⟩ := ih h
      refine ⟨a :: pre, post, rfl, ?_, hx⟩
      intro y hy
      rcases List.mem_cons.mp hy with rfl | hy
      · exact ha
      · exact hpre y hy

/-- updateFirst rewrites exactly the first matching element. -/
theorem updateFirst_append {α} (p : α → Bool) (f : α → α)
    (pre : List α) (x : α) (post : List α)
    (hpre : ∀ y ∈ pre, ¬ p y) (hx : p x) :
    updateFirst p f (pre ++ x :: post) = pre ++ f x :: post := by
  induction pre with
  | nil => simp [updateFirst, hx]
  | cons a as ih =>
    have ha : ¬ p a := hpre a (List.mem_cons_self a as)
    rw [List.cons_append, updateFirst, if_neg ha,
      ih (fun y hy => hpre y (List.mem_cons_of_mem a hy)), List.cons_append]

/-- removeFirst removes exactly the first matching element. -/
theorem removeFirst_append {α} (p : α → Bool)
    (pre : List α) (x : α) (post : List α)
    (hpre : ∀ y ∈ pre, ¬ p y) (hx : p x) :
    removeFirst p (pre ++ x :: post) = pre ++ post := by
  induction pre with
  | nil => simp [removeFirst, hx]
  | cons a as ih =>
    have ha : ¬ p a := hpre a (List.mem_cons_self a as)
    rw [List.cons_append, removeFirst, if_neg ha,
      ih (fun y hy => hpre y (List.mem_cons_of_mem a hy)), List.cons_append]

/-- Replacing the middle element by one the relation cannot distinguish
preserves pairwise-ness. -/
theorem pairwise_middle_congr {α} {R : α → α → Prop} {pre post : List α} {x y : α}
    (hl : ∀ z, R x z → R y z) (hr : ∀ z, R z x → R z y)
    (h : (pre ++ x :: post).Pairwise R) : (pre ++ y :: post).Pairwise R := by
  rw [List.pairwise_append] at h ⊢
  obtain ⟨h1, h2, h3⟩ := h
  rw [List.pairwise_cons] at h2 ⊢
  refine ⟨h1, ⟨fun b hb => hl b (h2.1 b hb), h2.2⟩, ?_⟩
  intro a ha b hb
  rcases List.mem_cons.mp hb with rfl | hb
  · exact hr a (h3 a ha x (List.mem_cons_self x post))
  · exact h3 a ha b (List.mem_cons_of_mem x hb)

/-- A list with no match has countP zero. -/
theorem countP_eq_zero_of_find?_eq_none {α} {p : α → Bool} {l : List α}
    (h : l.find? p = none) : l.countP p = 0 :=
  List.countP_eq_zero.mpr (List.find?_eq_none.mp h)

/-- Looking a key up skips a cons with a different key. -/
theorem lookupCount_cons_ne {k' : Int} {v : Nat} {m : List (Int × Nat)}
    {tid : Int} (h : (k' == tid) = false) :
    lookupCount ((k', v) :: m) tid = lookupCount m tid := by
  simp only [lookupCount]
  rw [List.find?_cons_of_neg]
  simp [h]

/-- Looking up the key of the head returns the head's value. -/
theorem lookupCount_cons_self {k' : Int} {v : Nat} {m : List (Int × Nat)}
    {tid : Int} (h : (k' == tid) = true) :
    lookupCount ((k', v) :: m) tid = some v := by
  simp only [lookupCount]
  rw [List.find?_cons_of_pos]
  · rfl
  · simpa using h

/-- bumpCount increments the value stored at its key (0 when absent). -/
theorem lookupCount_bumpCount_self (m : List (Int × Nat)) (k : Int) :
    lookupCount (bumpCount k m) k = some ((lookupCount m k).getD 0 + 1) := by
  induction m with
  | nil => simp [bumpCount, lookupCount]
  | cons kv rest ih =>
    obtain ⟨k', v⟩ := kv
    by_cases hk : k' = k
    · have hb : (k' == k) = true := beq_iff_eq.mpr hk
      rw [show bumpCount k ((k', v) :: rest) = (k', v + 1) :: rest from by
            simp [bumpCount, hb]]
      rw [lookupCount_cons_self hb, lookupCount_cons_self hb]
      simp
    · have hb : (k' == k) = false := beq_eq_false_iff_ne.mpr hk
      rw [show bumpCount k ((k', v) :: rest) = (k', v) :: bumpCount k rest from by
            simp [bumpCount, hb]]
      rw [lookupCount_cons_ne hb, lookupCount_cons_ne hb]
      exact ih

/-- bumpCount leaves every other key alone. -/
theorem lookupCount_bumpCount_ne (m : List (Int × Nat)) (k tid : Int)
    (h : k ≠ tid) :
    lookupCount (bumpCount k m) tid = lookupCount m tid := by
  have hkt : (k == tid) = false := beq_eq_false_iff_ne.mpr h
  induction m with
  | nil => simp [bumpCount, lookupCount, hkt]
  | cons kv rest ih =>
    obtain ⟨k', v⟩ := kv
    by_cases hk : k' = k
    · have hb : (k' == k) = true := beq_iff_eq.mpr hk
      have hbt : (k' == tid) = false :=
        beq_eq_false_iff_ne.mpr (by rw [hk]; exact h)
      rw [show bumpCount k ((k', v) :: rest) = (k', v + 1) :: rest from by
            simp [bumpCount, hb]]
      rw [lookupCount_cons_ne hbt, lookupCount_cons_ne hbt]
    · have hb : (k' == k) = false := beq_eq_false_iff_ne.mpr hk
      rw [show bumpCount k ((k', v) :: rest) = (k', v) :: bumpCount k rest from by
            simp [bumpCount, hb]]
      by_cases ht : k' = tid
      · have hbt : (k' == tid) = true := beq_iff_eq.mpr ht
        rw [lookupCount_cons_self hbt, lookupCount_cons_self hbt]
      · have hbt : (k' == tid) = false := beq_eq_false_iff_ne.mpr ht
        rw [lookupCount_cons_ne hbt, lookupCount_cons_ne hbt]
        exact ih

/-- The running total computed by the stats loop. -/
theorem stats_fold_total (l : List PomodoroSession) (m : List (Int × Nat))
    (tot : Int) :
    (l.foldl (fun acc s =>
        (bumpCount s.task_id acc.1, acc.2 + (s.end_time - s.start_time)))
      (m, tot)).2
    = tot + (l.map (fun s => s.end_time - s.start_time)).sum := by
  induction l generalizing m tot with
  | nil => simp
  | cons s rest ih =>
    simp only [List.foldl_cons, List.map_cons, List.sum_cons]
    rw [ih]
    ring

/-- The per-task counter computed by the stats loop. -/
theorem stats_fold_count (l : List PomodoroSession) (m : List (Int × Nat))
    (tot : Int) (tid : Int) :
    lookupCount (l.foldl (fun acc s =>
        (bumpCount s.task_id acc.1, acc.2 + (s.end_time - s.start_time)))
      (m, tot)).1 tid
    = (if lookupCount m tid = none ∧ l.countP (fun s => s.task_id == tid) = 0
       then none
       else some ((lookupCount m tid).getD 0
                    + l.countP (fun s => s.task_id == tid))) := by
  induction l generalizing m tot with
  | nil =>
    simp only [List.foldl_nil, List.countP_nil]
    cases h : lookupCount m tid with
    | none => simp [h]
    | some v => simp [h]
  | cons s rest ih =>
    simp only [List.foldl_cons, List.countP_cons]
    rw [ih]
    by_cases hs : s.task_id = tid
    · have hb : (s.task_id == tid) = true := beq_iff_eq.mpr hs
      have h1 : (if (s.task_id == tid) = true then 1 else 0) = 1 := by
        simp [hb]
      rw [show bumpCount s.task_id m = bumpCount tid m from by rw [hs],
        lookupCount_bumpCount_self, h1]
      rw [if_neg (by simp)]
      rw [if_neg (by rintro ⟨-, hh⟩; omega)]
      simp only [Option.getD_some]
      exact congrArg some (by omega)
    · have hb : (s.task_id == tid) = false := beq_eq_false_iff_ne.mpr hs
      have h1 : (if (s.task_id == tid) = true then 1 else 0) = 0 := by
        simp [hb]
      rw [lookupCount_bumpCount_ne m s.task_id tid hs, h1]
      simp

/-- The stats dict maps each task_id to its number of completed sessions,
and contains no entry when that number is zero. -/
theorem stats_count_lookup (db : DB) (tid : Int) :
    lookupCount (get_pomodoro_stats db).1 tid
    = (if db.sessions.countP (fun s => s.completed && s.task_id == tid) = 0
       then none
       else some (db.sessions.countP (fun s => s.completed && s.task_id == tid))) := by
  unfold get_pomodoro_stats
  rw [stats_fold_count]
  have hnil : lookupCount ([] : List (Int × Nat)) tid = none := by
    simp [lookupCount]
  rw [hnil]
  have hcnt : (db.sessions.filter (fun s => s.completed)).countP
      (fun s => s.task_id == tid)
      = db.sessions.countP (fun s => s.completed && s.task_id == tid) := by
    rw [List.countP_filter]
    exact List.countP_congr (fun a _ => by rw [Bool.and_comm])
  rw [hcnt]
  by_cases hc :
      db.sessions.countP (fun s => s.completed && s.task_id == tid) = 0
  · simp [hc]
  · simp [hc]

/-- The stats total is the sum of end_time - start_time over the completed
sessions. -/
theorem stats_total (db : DB) :
    (get_pomodoro_stats db).2
    = ((db.sessions.filter (fun s => s.completed)).map
        (fun s => s.end_time - s.start_time)).sum := by
  unfold get_pomodoro_stats
  rw [stats_fold_total]
  ring

/-- A successful create preserves the state invariant. -/
theorem inv_create {db : DB} {t : TaskModel} {db' : DB} {tk : Task}
    (h : create_task db t = .ok (db', tk)) (hinv : Inv db) : Inv db' := by
  unfold create_task at h
  by_cases h1 : (db.tasks.find? (fun x => x.title == t.title)).isSome
  · simp [h1] at h
  · by_cases h2 : (db.tasks.find? (fun x => x.id == t.id)).isSome
    · simp [h1, h2] at h
    · simp [h1, h2] at h
      obtain ⟨hdb, -⟩ := h
      subst hdb
      have htitle := List.find?_eq_none.mp (Option.not_isSome_iff_eq_none.mp h1)
      have hid := List.find?_eq_none.mp (Option.not_isSome_iff_eq_none.mp h2)
      obtain ⟨hT, hI, hA⟩ := hinv
      refine ⟨?_, ?_, hA⟩
      · rw [titlesUnique, List.pairwise_append]
        refine ⟨hT, by simp, ?_⟩
        intro a ha b hb
        simp only [List.mem_singleton] at hb
        subst hb
        intro heq
        exact htitle a ha (by simp [heq])
      · rw [idsUnique, List.pairwise_append]
        refine ⟨hI, by simp, ?_⟩
        intro a ha b hb
        simp only [List.mem_singleton] at hb
        subst hb
        intro heq
        exact hid a ha (by simp [heq])

/-- A successful update preserves the state invariant. -/
theorem inv_update {db : DB} {tid : Int} {u : TaskModel} {db' : DB}
    (h : update_task db tid u = .ok db') (hinv : Inv db) : Inv db' := by
  unfold update_task at h
  cases hfind : db.tasks.find? (fun x => x.id == tid) with
  | none => simp [hfind] at h
  | some x =>
    rw [hfind] at h
    by_cases hc :
        (db.tasks.find? (fun y => y.title == u.title && !(y.id == tid))).isSome
    · simp [hc] at h
    · simp [hc] at h
      subst h
      have hnoc := List.find?_eq_none.mp (Option.not_isSome_iff_eq_none.mp hc)
      have hsame : ∀ y ∈ db.tasks, y.title = u.title → y.id = tid := by
        intro y hy hty
        have := hnoc y hy
        simp [hty] at this
        exact this
      obtain ⟨pre, post, hsplit, hpre, hx⟩ := find?_split hfind
      have hxid : x.id = tid := by simpa using hx
      obtain ⟨hT, hI, hA⟩ := hinv
      rw [titlesUnique, hsplit] at hT
      rw [idsUnique, hsplit] at hI
      have hrw : updateFirst (fun y => y.id == tid)
          (fun y => { y with title := u.title, description := u.description,
                             status := u.status }) db.tasks
          = pre ++ { x with title := u.title, description := u.description,
                            status := u.status } :: post := by
        rw [hsplit]
        exact updateFirst_append _ _ pre x post hpre hx
      refine ⟨?_, ?_, hA⟩
      · rw [titlesUnique]
        simp only [hrw]
        rw [List.pairwise_append] at hT ⊢
        obtain ⟨hTpre, hTcons, hTcross⟩ := hT
        rw [List.pairwise_cons] at hTcons ⊢
        rw [List.pairwise_append] at hI
        obtain ⟨-, hIcons, hIcross⟩ := hI
        rw [List.pairwise_cons] at hIcons
        refine ⟨hTpre, ⟨?_, hTcons.2⟩, ?_⟩
        · intro b hb heq
          have hbid : b.id = tid :=
            hsame b (by rw [hsplit]; simp [hb]) heq.symm
          exact hIcons.1 b hb (by rw [hxid, hbid])
        · intro a ha b hb
          rcases List.mem_cons.mp hb with rfl | hb
          · intro heq
            have haid : a.id = tid :=
              hsame a (by rw [hsplit]; simp [ha]) heq
            exact hIcross a ha x (List.mem_cons_self x post) (by rw [haid, hxid])
          · exact hTcross a ha b (List.mem_cons_of_mem x hb)
      · rw [idsUnique]
        simp only [hrw]
        exact pairwise_middle_congr (x := x) (fun z hz => hz) (fun z hz => hz) hI

/-- A successful delete preserves the state invariant. -/
theorem inv_delete {db : DB} {tid : Int} {db' : DB}
    (h : delete_task db tid = .ok db') (hinv : Inv db) : Inv db' := by
  unfold delete_task at h
  cases hfind : db.tasks.find? (fun x => x.id == tid) with
  | none => simp [hfind] at h
  | some x =>
    rw [hfind] at h
    simp at h
    subst h
    obtain ⟨pre, post, hsplit, hpre, hx⟩ := find?_split hfind
    have hrw : removeFirst (fun y => y.id == tid) db.tasks = pre ++ post := by
      rw [hsplit]
      exact removeFirst_append _ pre x post hpre hx
    obtain ⟨hT, hI, hA⟩ := hinv
    rw [titlesUnique] at hT
    rw [idsUnique] at hI
    have hsub : List.Sublist (pre ++ post) db.tasks := by
      rw [hsplit]
      exact List.Sublist.append_left (List.sublist_cons_self x post) pre
    refine ⟨?_, ?_, hA⟩
    · rw [titlesUnique]
      simp only [hrw]
      exact hT.sublist hsub
    · rw [idsUnique]
      simp only [hrw]
      exact hI.sublist hsub

/-- A successful start preserves the state invariant. -/
theorem active_start {db : DB} {tid now : Int} {db' : DB} {s : PomodoroSession}
    (h : create_pomodoro db tid now = .ok (db', s)) (hA : atMostOneActive db) :
    atMostOneActive db' := by
  unfold create_pomodoro at h
  by_cases h1 : (db.tasks.find? (fun x => x.id == tid)).isNone
  · simp [h1] at h
  · by_cases h2 : (db.sessions.find? (isActiveFor tid)).isSome
    · simp [h1, h2] at h
    · simp [h1, h2] at h
      obtain ⟨hdb, -⟩ := h
      subst hdb
      rw [atMostOneActive] at hA
      intro tid'
      simp only [List.countP_append, List.countP_cons, List.countP_nil]
      by_cases he : tid = tid'
      · subst he
        have h0 : db.sessions.countP (isActiveFor tid) = 0 :=
          countP_eq_zero_of_find?_eq_none (Option.not_isSome_iff_eq_none.mp h2)
        have hnew : isActiveFor tid
            { task_id := tid, start_time := now,
              end_time := now + pomodoroDuration, completed := false } = true := by
          simp [isActiveFor]
        rw [h0, hnew]
        simp
      · have hnew : isActiveFor tid'
            { task_id := tid, start_time := now,
              end_time := now + pomodoroDuration, completed := false } = false := by
          simp only [isActiveFor, Bool.not_false, Bool.and_true]
          exact beq_eq_false_iff_ne.mpr he
        rw [hnew]
        have := hA tid'
        simp only [Bool.false_eq_true, if_false]
        omega

/-- A successful start leaves the task table unchanged. -/
theorem start_tasks {db : DB} {tid now : Int} {db' : DB} {s : PomodoroSession}
    (h : create_pomodoro db tid now = .ok (db', s)) : db'.tasks = db.tasks := by
  unfold create_pomodoro at h
  by_cases h1 : (db.tasks.find? (fun x => x.id == tid)).isNone
  · simp [h1] at h
  · by_cases h2 : (db.sessions.find? (isActiveFor tid)).isSome
    · simp [h1, h2] at h
    · simp [h1, h2] at h
      obtain ⟨hdb, -⟩ := h
      subst hdb
      rfl

/-- A successful start preserves the state invariant. -/
theorem inv_start {db : DB} {tid now : Int} {db' : DB} {s : PomodoroSession}
    (h : create_pomodoro db tid now = .ok (db', s)) (hinv : Inv db) : Inv db' := by
  obtain ⟨hT, hI, hA⟩ := hinv
  have htasks := start_tasks h
  refine ⟨?_, ?_, active_start h hA⟩
  · rw [titlesUnique, htasks]
    exact hT
  · rw [idsUnique, htasks]
    exact hI

/-- A successful stop keeps the single-active-session bound. -/
theorem active_stop {db : DB} {tid now : Int} {db' : DB}
    (h : stop_pomodoro db tid now = .ok db') (hA : atMostOneActive db) :
    atMostOneActive db' := by
  unfold stop_pomodoro at h
  cases hfind : db.sessions.find? (isActiveFor tid) with
  | none => simp [hfind] at h
  | some s =>
    rw [hfind] at h
    simp at h
    subst h
    obtain ⟨pre, post, hsplit, hpre, hx⟩ := find?_split hfind
    have hrw : updateFirst (isActiveFor tid)
        (fun y => { y with completed := true, end_time := now }) db.sessions
        = pre ++ { s with completed := true, end_time := now } :: post := by
      rw [hsplit]
      exact updateFirst_append _ _ pre s post hpre hx
    intro tid'
    simp only [hrw, List.countP_append, List.countP_cons]
    have hstopped : isActiveFor tid'
        { s with completed := true, end_time := now } = false := by
      simp [isActiveFor]
    rw [hstopped]
    have h1 := hA tid'
    rw [hsplit, List.countP_append, List.countP_cons] at h1
    by_cases hps : isActiveFor tid' s
    · rw [if_pos hps] at h1
      simp only [Bool.false_eq_true, if_false]
      omega
    · rw [if_neg hps] at h1
      simp only [Bool.false_eq_true, if_false]
      omega

/-- A successful stop leaves the task table unchanged. -/
theorem stop_tasks {db : DB} {tid now : Int} {db' : DB}
    (h : stop_pomodoro db tid now = .ok db') : db'.tasks = db.tasks := by
  unfold stop_pomodoro at h
  cases hfind : db.sessions.find? (isActiveFor tid) with
  | none => simp [hfind] at h
  | some s =>
    rw [hfind] at h
    simp at h
    subst h
    rfl

/-- A successful stop preserves the state invariant. -/
theorem inv_stop {db : DB} {tid now : Int} {db' : DB}
    (h : stop_pomodoro db tid now = .ok db') (hinv : Inv db) : Inv db' := by
  obtain ⟨hT, hI, hA⟩ := hinv
  have htasks := stop_tasks h
  refine ⟨?_, ?_, active_stop h hA⟩
  · rw [titlesUnique, htasks]
    exact hT
  · rw [idsUnique, htasks]
    exact hI

/-- A successful create leaves the session table unchanged. -/
theorem create_task_sessions {db : DB} {t : TaskModel} {db' : DB} {tk : Task}
    (h : create_task db t = .ok (db', tk)) : db'.sessions = db.sessions := by
  unfold create_task at h
  by_cases h1 : (db.tasks.find? (fun x => x.title == t.title)).isSome
  · simp [h1] at h
  · by_cases h2 : (db.tasks.find? (fun x => x.id == t.id)).isSome
    · simp [h1, h2] at h
    · simp [h1, h2] at h
      obtain ⟨hdb, -⟩ := h
      subst hdb
      rfl

/-- A successful update leaves the session table unchanged. -/
theorem update_task_sessions {db : DB} {tid : Int} {u : TaskModel} {db' : DB}
    (h : update_task db tid u = .ok db') : db'.sessions = db.sessions := by
  unfold update_task at h
  cases hfind : db.tasks.find? (fun x => x.id == tid) with
  | none => simp [hfind] at h
  | some x =>
    rw [hfind] at h
    by_cases hc :
        (db.tasks.find? (fun y => y.title == u.title && !(y.id == tid))).isSome
    · simp [hc] at h
    · simp [hc] at h
      subst h
      rfl

/-- A successful delete leaves the session table unchanged. -/
theorem delete_task_sessions {db : DB} {tid : Int} {db' : DB}
    (h : delete_task db tid = .ok db') : db'.sessions = db.sessions := by
  unfold delete_task at h
  cases hfind : db.tasks.find? (fun x => x.id == tid) with
  | none => simp [hfind] at h
  | some x =>
    rw [hfind] at h
    simp at h
    subst h
    rfl

/-- The single-active-session bound only depends on the session table. -/
theorem atMostOneActive_of_sessions_eq {db db' : DB}
    (h : db'.sessions = db.sessions) (hA : atMostOneActive db) :
    atMostOneActive db' := by
  intro tid
  rw [atMostOneActive] at hA
  simp only [h]
  exact hA tid

/-- Every operation, from any state, preserves the single-active-session
bound. -/
theorem active_applyOp (db : DB) (op : Op) (hA : atMostOneActive db) :
    atMostOneActive (applyOp db op) := by
  cases op with
  | createT t =>
    simp only [applyOp]
    by_cases hv : validTaskModel t
    · rw [if_pos hv]
      cases hc : create_task db t with
      | ok r =>
        obtain ⟨db2, tk⟩ := r
        exact atMostOneActive_of_sessions_eq (create_task_sessions hc) hA
      | error e => exact hA
    · rw [if_neg hv]
      exact hA
  | listT s => exact hA
  | getT i => exact hA
  | updateT i t =>
    simp only [applyOp]
    by_cases hv : validTaskModel t
    · rw [if_pos hv]
      cases hc : update_task db i t with
      | ok db2 => exact atMostOneActive_of_sessions_eq (update_task_sessions hc) hA
      | error e => exact hA
    · rw [if_neg hv]
      exact hA
  | deleteT i =>
    simp only [applyOp]
    cases hc : delete_task db i with
    | ok db2 => exact atMostOneActive_of_sessions_eq (delete_task_sessions hc) hA
    | error e => exact hA
  | startP tid now =>
    simp only [applyOp]
    cases hc : create_pomodoro db tid now with
    | ok r =>
      obtain ⟨db2, snew⟩ := r
      exact active_start hc hA
    | error e => exact hA
  | stopP tid now =>
    simp only [applyOp]
    cases hc : stop_pomodoro db tid now with
    | ok db2 => exact active_stop hc hA
    | error e => exact hA

/-- Every operation preserves the state invariant. -/
theorem inv_applyOp (db : DB) (op : Op) (hinv : Inv db) : Inv (applyOp db op) := by
  cases op with
  | createT t =>
    simp only [applyOp]
    by_cases hv : validTaskModel t
    · rw [if_pos hv]
      cases hc : create_task db t with
      | ok r =>
        obtain ⟨db2, tk⟩ := r
        exact inv_create hc hinv
      | error e => exact hinv
    · rw [if_neg hv]
      exact hinv
  | listT s => exact hinv
  | getT i => exact hinv
  | updateT i t =>
    simp only [applyOp]
    by_cases hv : validTaskModel t
    · rw [if_pos hv]
      cases hc : update_task db i t with
      | ok db2 => exact inv_update hc hinv
      | error e => exact hinv
    · rw [if_neg hv]
      exact hinv
  | deleteT i =>
    simp only [applyOp]
    cases hc : delete_task db i with
    | ok db2 => exact inv_delete hc hinv
    | error e => exact hinv
  | startP tid now =>
    simp only [applyOp]
    cases hc : create_pomodoro db tid now with
    | ok r =>
      obtain ⟨db2, s⟩ := r
      exact inv_start hc hinv
    | error e => exact hinv
  | stopP tid now =>
    simp only [applyOp]
    cases hc : stop_pomodoro db tid now with
    | ok db2 => exact inv_stop hc hinv
    | error e => exact hinv

/-- Every reachable state satisfies the combined invariant. -/
theorem reachable_inv {db : DB} (h : Reachable db) : Inv db := by
  induction h with
  | init =>
    refine ⟨List.Pairwise.nil, List.Pairwise.nil, ?_⟩
    intro tid
    simp [DB.empty]
  | step op hr ih => exact inv_applyOp _ op ih

/-- C2: for every state, stats() returns sessionsPerTask mapping each task_id
to its number of completed sessions (task_ids with zero completed sessions
are absent) and totalDuration equal to the sum of end_time - start_time over
all completed sessions; incomplete sessions contribute to neither. -/
theorem stats_sessionsPerTask_totalDuration (db : DB) (tid : Int) :
    lookupCount (get_pomodoro_stats db).1 tid
      = (if db.sessions.countP (fun s => s.completed && s.task_id == tid) = 0
         then none
         else some (db.sessions.countP (fun s => s.completed && s.task_id == tid)))
    ∧ (get_pomodoro_stats db).2
      = ((db.sessions.filter (fun s => s.completed)).map
          (fun s => s.end_time - s.start_time)).sum :=
  ⟨stats_count_lookup db tid, stats_total db⟩

/-- C9: create checks only title uniqueness, never id uniqueness: when the
client-supplied id collides with an existing task's id under a fresh title,
the handler reaches commit and fails with an unhandled store error
(IntegrityError), not a ConflictError and not a ValidationError. -/
theorem create_duplicate_id_unhandled (db : DB) (t : TaskModel)
    (htitle : db.tasks.find? (fun x => x.title == t.title) = none)
    (hid : (db.tasks.find? (fun x => x.id == t.id)).isSome) :
    create_task db t = .error .integrityError := by
  unfold create_task
  rw [if_neg (by simp [htitle]), if_pos hid]

/-- Witness for C9: a store holding task id 1 titled "aaa"; creating
id 1 titled "bbb" hits the primary-key violation at commit. -/
theorem create_duplicate_id_unhandled_witness :
    ([⟨1, "aaa", none, "TODO"⟩] : List Task).find?
        (fun x => x.title == "bbb") = none
  ∧ (([⟨1, "aaa", none, "TODO"⟩] : List Task).find?
        (fun x => x.id == (1 : Int))).isSome
  ∧ create_task ⟨[⟨1, "aaa", none, "TODO"⟩], []⟩ ⟨1, "bbb", none, "TODO"⟩
      = .error .integrityError :=
  ⟨by decide, by decide,
   create_duplicate_id_unhandled ⟨[⟨1, "aaa", none, "TODO"⟩], []⟩
     ⟨1, "bbb", none, "TODO"⟩ (by decide) (by decide)⟩

/-- C1 fails on the code: the stored id is the one supplied in the request
body (first conjunct: the caller's id 42 is stored on an empty registry,
not a registry-assigned id), and ids are reused after a delete (second
conjunct: after creating id 1, deleting it, and creating again with body
id 1, the same id 1 is assigned a second time), so id assignment is
neither registry-controlled nor strictly monotonic. -/
theorem create_id_from_body_and_reused :
    create_task DB.empty ⟨42, "abc", none, "TODO"⟩
      = .ok (⟨[⟨42, "abc", none, "TODO"⟩], []⟩, ⟨42, "abc", none, "TODO"⟩)
  ∧ applyOp (applyOp (applyOp DB.empty (.createT ⟨1, "aaa", none, "TODO"⟩))
        (.deleteT 1)) (.createT ⟨1, "bbb", none, "TODO"⟩)
      = ⟨[⟨1, "bbb", none, "TODO"⟩], []⟩ :=
  ⟨rfl, rfl⟩

/-- C5: start(task_id) fails with 404 when the task is absent, with the
active-timer conflict when an incomplete session for task_id exists, and
otherwise appends exactly one session with start_time = now,
end_time = now + 25 minutes, completed = false, leaving the task table and
all pre-existing sessions unchanged. -/
theorem start_pomodoro_spec (db : DB) (task_id now : Int) :
    (db.tasks.find? (fun t => t.id == task_id) = none →
      create_pomodoro db task_id now = .error errTaskNotFound)
  ∧ ((db.tasks.find? (fun t => t.id == task_id)).isSome →
      (db.sessions.find? (isActiveFor task_id)).isSome →
      create_pomodoro db task_id now = .error errActiveTimer)
  ∧ ((db.tasks.find? (fun t => t.id == task_id)).isSome →
      db.sessions.find? (isActiveFor task_id) = none →
      create_pomodoro db task_id now =
        .ok ({ tasks := db.tasks,
               sessions := db.sessions ++
                 [{ task_id := task_id, start_time := now,
                    end_time := now + pomodoroDuration, completed := false }] },
             { task_id := task_id, start_time := now,
               end_time := now + pomodoroDuration, completed := false })) := by
  refine ⟨?_, ?_, ?_⟩
  · intro h
    unfold create_pomodoro
    rw [if_pos (by simp [h])]
  · intro h1 h2
    obtain ⟨x, hx⟩ := Option.isSome_iff_exists.mp h1
    unfold create_pomodoro
    rw [if_neg (by simp [hx]), if_pos h2]
  · intro h1 h2
    obtain ⟨x, hx⟩ := Option.isSome_iff_exists.mp h1
    unfold create_pomodoro
    rw [if_neg (by simp [hx]), if_neg (by simp [h2])]

/-- Witness for C5 at concrete states: absent task, active conflict, and a
successful start. -/
theorem start_pomodoro_spec_witness :
    create_pomodoro ⟨[], []⟩ 1 0 = .error errTaskNotFound
  ∧ create_pomodoro ⟨[⟨1, "abc", none, "TODO"⟩], [⟨1, 0, 1500, false⟩]⟩ 1 900
      = .error errActiveTimer
  ∧ create_pomodoro ⟨[⟨1, "abc", none, "TODO"⟩], []⟩ 1 0
      = .ok (⟨[⟨1, "abc", none, "TODO"⟩],
              [⟨1, 0, 0 + pomodoroDuration, false⟩]⟩,
             ⟨1, 0, 0 + pomodoroDuration, false⟩) :=
  ⟨(start_pomodoro_spec ⟨[], []⟩ 1 0).1 rfl,
   (start_pomodoro_spec ⟨[⟨1, "abc", none, "TODO"⟩], [⟨1, 0, 1500, false⟩]⟩
      1 900).2.1 (by decide) (by decide),
   (start_pomodoro_spec ⟨[⟨1, "abc", none, "TODO"⟩], []⟩ 1 0).2.2
      (by decide) rfl⟩

/-- C6: stop(task_id) fails (with the no-active-timer error) exactly when
no incomplete session for task_id exists, and then changes nothing; on
success it sets completed = true and end_time = now on the unique
incomplete session for task_id and leaves every other session (and the
task table) unchanged. -/
theorem stop_pomodoro_spec (db : DB) (task_id now : Int) :
    (db.sessions.find? (isActiveFor task_id) = none ↔
      stop_pomodoro db task_id now = .error errNoActiveTimer)
  ∧ (db.sessions.find? (isActiveFor task_id) = none →
      applyOp db (.stopP task_id now) = db)
  ∧ (∀ s, db.sessions.find? (isActiveFor task_id) = some s →
      atMostOneActive db →
      ∃ pre post,
        db.sessions = pre ++ s :: post
        ∧ (∀ y ∈ pre, ¬ isActiveFor task_id y)
        ∧ (∀ y ∈ post, ¬ isActiveFor task_id y)
        ∧ stop_pomodoro db task_id now =
            .ok { db with sessions :=
                  pre ++ { s with completed := true, end_time := now } :: post }) := by
  refine ⟨⟨?_, ?_⟩, ?_, ?_⟩
  · intro h
    unfold stop_pomodoro
    rw [h]
  · intro h
    cases hfind : db.sessions.find? (isActiveFor task_id) with
    | none => rfl
    | some s =>
      unfold stop_pomodoro at h
      rw [hfind] at h
      simp at h
  · intro h
    simp only [applyOp]
    have herr : stop_pomodoro db task_id now = .error errNoActiveTimer := by
      unfold stop_pomodoro
      rw [h]
    rw [herr]
  · intro s hfind hA
    obtain ⟨pre, post, hsplit, hpre, hx⟩ := find?_split hfind
    have hpost : ∀ y ∈ post, ¬ isActiveFor task_id y := by
      have hcount := hA task_id
      rw [hsplit, List.countP_append, List.countP_cons, if_pos hx] at hcount
      have h0 : post.countP (isActiveFor task_id) = 0 := by omega
      exact List.countP_eq_zero.mp h0
    refine ⟨pre, post, hsplit, hpre, hpost, ?_⟩
    unfold stop_pomodoro
    rw [hfind]
    have hrw : updateFirst (isActiveFor task_id)
        (fun y => { y with completed := true, end_time := now }) db.sessions
        = pre ++ { s with completed := true, end_time := now } :: post := by
      rw [hsplit]
      exact updateFirst_append _ _ pre s post hpre hx
    rw [hrw]

/-- Witness for C6: stopping with no active session fails and changes
nothing; stopping the single active session completes exactly it. -/
theorem stop_pomodoro_spec_witness :
    stop_pomodoro ⟨[], []⟩ 1 7 = .error errNoActiveTimer
  ∧ applyOp (⟨[], []⟩ : DB) (.stopP 1 7) = ⟨[], []⟩
  ∧ (∃ pre post,
      ([⟨1, 0, 1500, false⟩] : List PomodoroSession)
        = pre ++ ⟨1, 0, 1500, false⟩ :: post
      ∧ (∀ y ∈ pre, ¬ isActiveFor 1 y)
      ∧ (∀ y ∈ post, ¬ isActiveFor 1 y)
      ∧ stop_pomodoro ⟨[], [⟨1, 0, 1500, false⟩]⟩ 1 7 =
          .ok ⟨[], pre ++ ⟨1, 0, 7, true⟩ :: post⟩) :=
  ⟨((stop_pomodoro_spec ⟨[], []⟩ 1 7).1).mp rfl,
   (stop_pomodoro_spec ⟨[], []⟩ 1 7).2.1 rfl,
   (stop_pomodoro_spec ⟨[], [⟨1, 0, 1500, false⟩]⟩ 1 7).2.2
     ⟨1, 0, 1500, false⟩ rfl
     (by intro tid
         simp only [List.countP_cons, List.countP_nil]
         split <;> simp)⟩

/-- C7: update fails with 404 for every absent id and then mutates nothing;
when the id exists and no other task (different id) has the new title, it
replaces exactly the title, description and status of the first task with
that id, keeping its id and leaving every other task and the sessions
unchanged. -/
theorem update_task_spec (db : DB) (task_id : Int) (u : TaskModel) :
    (db.tasks.find? (fun t => t.id == task_id) = none ↔
      update_task db task_id u = .error errTaskNotFound)
  ∧ (db.tasks.find? (fun t => t.id == task_id) = none →
      ∀ v : TaskModel, applyOp db (.updateT task_id v) = db)
  ∧ (∀ x, db.tasks.find? (fun t => t.id == task_id) = some x →
      db.tasks.find? (fun t => t.title == u.title && !(t.id == task_id)) = none →
      ∃ pre post,
        db.tasks = pre ++ x :: post
        ∧ (∀ y ∈ pre, ¬ (y.id == task_id))
        ∧ update_task db task_id u =
            .ok { db with tasks :=
              pre ++ { id := x.id, title := u.title,
                       description := u.description,
                       status := u.status } :: post }) := by
  refine ⟨⟨?_, ?_⟩, ?_, ?_⟩
  · intro h
    unfold update_task
    rw [h]
  · intro h
    cases hfind : db.tasks.find? (fun t => t.id == task_id) with
    | none => rfl
    | some x =>
      unfold update_task at h
      rw [hfind] at h
      by_cases hc : (db.tasks.find?
          (fun t => t.title == u.title && !(t.id == task_id))).isSome
      · rw [if_pos hc] at h
        have h' : (Except.error errTitleConflict : Except ApiError DB)
            = .error errTaskNotFound := h
        simp [errTitleConflict, errTaskNotFound] at h'
      · rw [if_neg hc] at h
        simp at h
  · intro h v
    simp only [applyOp]
    by_cases hv : validTaskModel v
    · rw [if_pos hv]
      have herr : update_task db task_id v = .error errTaskNotFound := by
        unfold update_task
        rw [h]
      rw [herr]
    · rw [if_neg hv]
  · intro x hfind hc
    obtain ⟨pre, post, hsplit, hpre, hx⟩ := find?_split hfind
    refine ⟨pre, post, hsplit, hpre, ?_⟩
    unfold update_task
    rw [hfind, if_neg (by simp [hc])]
    have hrw : updateFirst (fun t => t.id == task_id)
        (fun t => { t with title := u.title, description := u.description,
                           status := u.status }) db.tasks
        = pre ++ { id := x.id, title := u.title, description := u.description,
                   status := u.status } :: post := by
      rw [hsplit]
      exact updateFirst_append _ _ pre x post hpre hx
    rw [hrw]

/-- Witness for C7: updating a missing id fails and mutates nothing;
updating an existing task replaces its fields only. -/
theorem update_task_spec_witness :
    update_task ⟨[], []⟩ 1 ⟨1, "bbb", none, "TODO"⟩ = .error errTaskNotFound
  ∧ applyOp (⟨[], []⟩ : DB) (.updateT 1 ⟨1, "bbb", none, "TODO"⟩) = ⟨[], []⟩
  ∧ (∃ pre post,
      ([⟨1, "aaa", none, "TODO"⟩] : List Task)
        = pre ++ ⟨1, "aaa", none, "TODO"⟩ :: post
      ∧ (∀ y ∈ pre, ¬ (y.id == (1 : Int)))
      ∧ update_task ⟨[⟨1, "aaa", none, "TODO"⟩], []⟩ 1 ⟨99, "bbb", none, "done"⟩
          = .ok ⟨pre ++ ⟨1, "bbb", none, "done"⟩ :: post, []⟩) :=
  ⟨((update_task_spec ⟨[], []⟩ 1 ⟨1, "bbb", none, "TODO"⟩).1).mp rfl,
   (update_task_spec ⟨[], []⟩ 1 ⟨1, "bbb", none, "TODO"⟩).2.1 rfl
     ⟨1, "bbb", none, "TODO"⟩,
   (update_task_spec ⟨[⟨1, "aaa", none, "TODO"⟩], []⟩ 1
      ⟨99, "bbb", none, "done"⟩).2.2 ⟨1, "aaa", none, "TODO"⟩
      (by decide) (by decide)⟩

/-- C8: delete fails with 404 when the id is absent; on success it removes
exactly the task with that id (so a subsequent get of the same id fails
with 404) and leaves the session table entirely unchanged. -/
theorem delete_task_spec (db : DB) (task_id : Int) :
    (db.tasks.find? (fun t => t.id == task_id) = none ↔
      delete_task db task_id = .error errTaskNotFound)
  ∧ (∀ x, db.tasks.find? (fun t => t.id == task_id) = some x →
      idsUnique db →
      ∃ pre post,
        db.tasks = pre ++ x :: post
        ∧ (∀ y ∈ pre ++ post, ¬ (y.id == task_id))
        ∧ delete_task db task_id = .ok { db with tasks := pre ++ post }
        ∧ get_task { db with tasks := pre ++ post } task_id
            = .error errTaskNotFound) := by
  refine ⟨⟨?_, ?_⟩, ?_⟩
  · intro h
    unfold delete_task
    rw [h]
  · intro h
    cases hfind : db.tasks.find? (fun t => t.id == task_id) with
    | none => rfl
    | some x =>
      unfold delete_task at h
      rw [hfind] at h
      simp at h
  · intro x hfind hI
    obtain ⟨pre, post, hsplit, hpre, hx⟩ := find?_split hfind
    have hxid : x.id = task_id := by simpa using hx
    rw [idsUnique, hsplit, List.pairwise_append] at hI
    obtain ⟨-, hIcons, -⟩ := hI
    rw [List.pairwise_cons] at hIcons
    have hall : ∀ y ∈ pre ++ post, ¬ (y.id == task_id) := by
      intro y hy
      rcases List.mem_append.mp hy with hy | hy
      · exact hpre y hy
      · intro hyb
        have hyid : y.id = task_id := by simpa using hyb
        exact hIcons.1 y hy (by rw [hxid, hyid])
    refine ⟨pre, post, hsplit, hall, ?_, ?_⟩
    · unfold delete_task
      rw [hfind]
      have hrw : removeFirst (fun t => t.id == task_id) db.tasks = pre ++ post := by
        rw [hsplit]
        exact removeFirst_append _ pre x post hpre hx
      rw [hrw]
    · unfold get_task
      have hproj : ({ db with tasks := pre ++ post } : DB).tasks = pre ++ post := rfl
      rw [hproj, List.find?_eq_none.mpr hall]

/-- Witness for C8: deleting the only task (which has a session attached)
removes the task, keeps the session, and a subsequent get fails. -/
theorem delete_task_spec_witness :
    delete_task ⟨[], [⟨1, 0, 1500, false⟩]⟩ 1 = .error errTaskNotFound
  ∧ (∃ pre post,
      ([⟨1, "aaa", none, "TODO"⟩] : List Task)
        = pre ++ ⟨1, "aaa", none, "TODO"⟩ :: post
      ∧ (∀ y ∈ pre ++ post, ¬ (y.id == (1 : Int)))
      ∧ delete_task ⟨[⟨1, "aaa", none, "TODO"⟩], [⟨1, 0, 1500, false⟩]⟩ 1
          = .ok ⟨pre ++ post, [⟨1, 0, 1500, false⟩]⟩
      ∧ get_task ⟨pre ++ post, [⟨1, 0, 1500, false⟩]⟩ 1
          = .error errTaskNotFound) :=
  ⟨((delete_task_spec ⟨[], [⟨1, 0, 1500, false⟩]⟩ 1).1).mp rfl,
   (delete_task_spec ⟨[⟨1, "aaa", none, "TODO"⟩], [⟨1, 0, 1500, false⟩]⟩ 1).2
     ⟨1, "aaa", none, "TODO"⟩ (by decide)
     (by rw [idsUnique]; simp)⟩

/-- C3: in every reachable state no two tasks share a title (case-sensitive
exact match); create fails with the title-conflict error when the title
already exists, and update fails with it when a task with a different id
already has the new title. -/
theorem title_uniqueness_invariant :
    (∀ db : DB, Reachable db →
      db.tasks.Pairwise (fun a b => a.title ≠ b.title))
  ∧ (∀ (db : DB) (t : TaskModel),
      (db.tasks.find? (fun x => x.title == t.title)).isSome →
      create_task db t = .error errTitleConflict)
  ∧ (∀ (db : DB) (task_id : Int) (u : TaskModel) (x : Task),
      db.tasks.find? (fun y => y.id == task_id) = some x →
      (db.tasks.find? (fun y => y.title == u.title && !(y.id == task_id))).isSome →
      update_task db task_id u = .error errTitleConflict) := by
  refine ⟨?_, ?_, ?_⟩
  · intro db h
    exact (reachable_inv h).1
  · intro db t h
    unfold create_task
    rw [if_pos h]
  · intro db task_id u x hfind hc
    unfold update_task
    rw [hfind, if_pos hc]

/-- Witness for C3: a two-create run keeps titles unique (the duplicate is
rejected), and the conflict branches fire on concrete stores. -/
theorem title_uniqueness_invariant_witness :
    (applyOp (applyOp DB.empty (.createT ⟨1, "abc", none, "TODO"⟩))
        (.createT ⟨2, "abc", none, "TODO"⟩)).tasks.Pairwise
      (fun a b => a.title ≠ b.title)
  ∧ create_task ⟨[⟨1, "abc", none, "TODO"⟩], []⟩ ⟨2, "abc", none, "TODO"⟩
      = .error errTitleConflict
  ∧ update_task ⟨[⟨1, "abc", none, "TODO"⟩, ⟨2, "def", none, "TODO"⟩], []⟩ 2
      ⟨2, "abc", none, "TODO"⟩ = .error errTitleConflict :=
  ⟨title_uniqueness_invariant.1 _
     (Reachable.step _ (Reachable.step _ Reachable.init)),
   title_uniqueness_invariant.2.1 ⟨[⟨1, "abc", none, "TODO"⟩], []⟩
     ⟨2, "abc", none, "TODO"⟩ (by decide),
   title_uniqueness_invariant.2.2
     ⟨[⟨1, "abc", none, "TODO"⟩, ⟨2, "def", none, "TODO"⟩], []⟩ 2
     ⟨2, "abc", none, "TODO"⟩ ⟨2, "def", none, "TODO"⟩ (by decide) (by decide)⟩

/-- C4: every operation preserves the at-most-one-incomplete-session-per-
task_id bound, and it holds in every reachable state. -/
theorem single_active_session_invariant :
    (∀ (db : DB) (op : Op),
      atMostOneActive db → atMostOneActive (applyOp db op))
  ∧ (∀ db : DB, Reachable db → atMostOneActive db) :=
  ⟨active_applyOp, fun _ h => (reachable_inv h).2.2⟩

/-- Witness for C4: the bound holds for a one-session store, is kept by a
stop call, and holds in the reachable state after one start. -/
theorem single_active_session_invariant_witness :
    atMostOneActive (⟨[], [⟨1, 0, 1500, false⟩]⟩ : DB)
  ∧ atMostOneActive (applyOp ⟨[], [⟨1, 0, 1500, false⟩]⟩ (.stopP 1 9))
  ∧ atMostOneActive (applyOp DB.empty (.startP 1 0)) := by
  have h1 : atMostOneActive (⟨[], [⟨1, 0, 1500, false⟩]⟩ : DB) := by
    intro tid
    simp only [List.countP_cons, List.countP_nil]
    split <;> simp
  exact ⟨h1, single_active_session_invariant.1 _ _ h1,
    single_active_session_invariant.2 _ (Reachable.step _ Reachable.init)⟩

/-- C10: stop never consults the task registry: with the task deleted but an
incomplete session for it still present, stop succeeds and completes that
orphaned session, and stats subsequently counts it. -/
theorem stop_orphaned_session_spec (db : DB) (task_id now : Int)
    (s : PomodoroSession)
    (htask : db.tasks.find? (fun t => t.id == task_id) = none)
    (hsess : db.sessions.find? (isActiveFor task_id) = some s) :
    ∃ pre post,
      db.sessions = pre ++ s :: post
      ∧ stop_pomodoro db task_id now =
          .ok { db with sessions :=
                pre ++ { s with completed := true, end_time := now } :: post }
      ∧ lookupCount (get_pomodoro_stats
            { db with sessions :=
              pre ++ { s with completed := true, end_time := now } :: post }).1
          task_id
        = some (db.sessions.countP
              (fun y => y.completed && y.task_id == task_id) + 1) := by
  obtain ⟨pre, post, hsplit, hpre, hx⟩ := find?_split hsess
  have hs_active : (s.task_id == task_id) = true ∧ s.completed = false := by
    have h := hx
    simp only [isActiveFor, Bool.and_eq_true, Bool.not_eq_eq_eq_not,
      Bool.not_true] at h
    exact ⟨h.1, h.2⟩
  refine ⟨pre, post, hsplit, ?_, ?_⟩
  · unfold stop_pomodoro
    rw [hsess]
    have hrw : updateFirst (isActiveFor task_id)
        (fun y => { y with completed := true, end_time := now }) db.sessions
        = pre ++ { s with completed := true, end_time := now } :: post := by
      rw [hsplit]
      exact updateFirst_append _ _ pre s post hpre hx
    rw [hrw]
  · rw [stats_count_lookup]
    have hproj : ({ db with sessions :=
        pre ++ { s with completed := true, end_time := now } :: post } : DB).sessions
        = pre ++ { s with completed := true, end_time := now } :: post := rfl
    have hnew : (pre ++ { s with completed := true, end_time := now } :: post).countP
        (fun y => y.completed && y.task_id == task_id)
        = db.sessions.countP (fun y => y.completed && y.task_id == task_id) + 1 := by
      rw [hsplit]
      simp only [List.countP_append, List.countP_cons]
      have h1 : (({ s with completed := true, end_time := now }
            : PomodoroSession).completed
          && ({ s with completed := true, end_time := now }
            : PomodoroSession).task_id == task_id) = true := by
        simp [hs_active.1]
      have h2 : (s.completed && s.task_id == task_id) = false := by
        simp [hs_active.2]
      rw [h1, h2]
      simp only [Bool.false_eq_true, if_false, if_true, add_zero]
      omega
    rw [hproj, hnew, if_neg (by omega)]

/-- Witness for C10: the store has no task 7 but an active session for it;
stop completes the orphan and stats reports one session for task 7. -/
theorem stop_orphaned_session_spec_witness :
    ∃ pre post,
      ([⟨7, 0, 1500, false⟩] : List PomodoroSession)
        = pre ++ ⟨7, 0, 1500, false⟩ :: post
      ∧ stop_pomodoro ⟨[], [⟨7, 0, 1500, false⟩]⟩ 7 9
          = .ok ⟨[], pre ++ ⟨7, 0, 9, true⟩ :: post⟩
      ∧ lookupCount (get_pomodoro_stats
            ⟨[], pre ++ ⟨7, 0, 9, true⟩ :: post⟩).1 7 = some 1 :=
  stop_orphaned_session_spec ⟨[], [⟨7, 0, 1500, false⟩]⟩ 7 9
    ⟨7, 0, 1500, false⟩ rfl rfl

end Fastapitest
